import Mathlib

/-!
Verification development for the NP-DHMC sampler core (infer.py).

The embedding models real-valued tensors as lists of rationals.  Values that
the source keeps as IEEE floats able to be infinite (log-weights, potential
energies, the acceptance exponent) are modelled by the extended type ERat
below, which mirrors the float special values the sampler actually relies on
(plus and minus infinity, and an absorbing nan for the mixed-infinity sums).
Rational momenta cannot represent the infinite momentum a float run would
produce when refracting against an infinite potential drop; that corner is
totalised with a junk value via ERat.toRat and is excluded by the finiteness
hypotheses of every theorem below.
-/

/-- Extended rationals mirroring the float special values used by the code. -/
inductive ERat : Type where
  | nan : ERat
  | ninf : ERat
  | fin : ℚ → ERat
  | pinf : ERat
deriving DecidableEq, Repr

/-- math.isfinite on the model values. -/
def ERat.isFinite : ERat → Bool
  | ERat.fin _ => true
  | _ => false

/-- Float negation on model values. -/
def ERat.neg : ERat → ERat
  | ERat.nan => ERat.nan
  | ERat.ninf => ERat.pinf
  | ERat.pinf => ERat.ninf
  | ERat.fin x => ERat.fin (-x)

/-- Float addition on model values; inf + (-inf) is nan, as for IEEE floats. -/
def ERat.add : ERat → ERat → ERat
  | ERat.fin x, ERat.fin y => ERat.fin (x + y)
  | ERat.fin _, ERat.pinf => ERat.pinf
  | ERat.fin _, ERat.ninf => ERat.ninf
  | ERat.pinf, ERat.fin _ => ERat.pinf
  | ERat.pinf, ERat.pinf => ERat.pinf
  | ERat.pinf, ERat.ninf => ERat.nan
  | ERat.ninf, ERat.fin _ => ERat.ninf
  | ERat.ninf, ERat.ninf => ERat.ninf
  | ERat.ninf, ERat.pinf => ERat.nan
  | ERat.nan, _ => ERat.nan
  | _, ERat.nan => ERat.nan

/-- Float subtraction on model values. -/
def ERat.sub (a b : ERat) : ERat := ERat.add a (ERat.neg b)

/-- Comparison of a finite rational with a model value; false against nan,
matching IEEE comparisons. -/
def ERat.ratLe (x : ℚ) : ERat → Bool
  | ERat.nan => false
  | ERat.ninf => false
  | ERat.fin d => decide (x ≤ d)
  | ERat.pinf => true

/-- Strict comparison of a finite rational with a model value. -/
def ERat.ratLt (x : ℚ) : ERat → Bool
  | ERat.nan => false
  | ERat.ninf => false
  | ERat.fin d => decide (x < d)
  | ERat.pinf => true

/-- Finite part of a model value.  The junk default 0 is only reached in the
refraction branch when the incoming potential is infinite, a corner where the
float source would produce an infinite momentum that the rational momentum
model cannot carry; every theorem below excludes it by a finiteness
hypothesis. -/
def ERat.toRat : ERat → ℚ
  | ERat.fin d => d
  | _ => 0

/-- torch.exp lifted to the model values; the finite case is delegated to the
numeric backend, which the spec treats as external, so it is a parameter. -/
def ERat.expF (expQ : ℚ → ℚ) : ERat → ERat
  | ERat.nan => ERat.nan
  | ERat.ninf => ERat.fin 0
  | ERat.fin d => ERat.fin (expQ d)
  | ERat.pinf => ERat.pinf

/-- torch.sign on rationals. -/
def sgn (x : ℚ) : ℚ := if 0 < x then 1 else if x < 0 then -1 else 0

/-- Numeric value of a mask bit (bool tensors multiply as 0/1 in torch). -/
def maskR (b : Bool) : ℚ := if b then 1 else 0

/-- Elementwise tensor addition. -/
def vadd (a b : List ℚ) : List ℚ := List.zipWith (fun x y => x + y) a b

/-- Elementwise tensor subtraction. -/
def vsub (a b : List ℚ) : List ℚ := List.zipWith (fun x y => x - y) a b

/-- Scalar times tensor. -/
def smul (c : ℚ) (a : List ℚ) : List ℚ := a.map (fun x => c * x)

/-- Tensor times a boolean mask (x * is_cont). -/
def maskMul (a : List ℚ) (m : List Bool) : List ℚ :=
  List.zipWith (fun x c => x * maskR c) a m

/-- Tensor times a negated boolean mask (x * ~is_cont). -/
def maskMulNot (a : List ℚ) (m : List Bool) : List ℚ :=
  List.zipWith (fun x c => x * maskR (!c)) a m

/-- Dot product of two tensors. -/
def dotQ (a b : List ℚ) : ℚ := (List.zipWith (fun x y => x * y) a b).sum

/-- Python slice l[a:b]. -/
def listSlice {α : Type} (l : List α) (a b : ℕ) : List α :=
  List.take (b - a) (List.drop a l)

/-- The single shared pseudo-random generator.  The underlying distribution
samplers are external (spec section 1), so they are modelled as abstract value
streams indexed by the position of the generator in its stream; every draw
advances the single shared position, which is what fixes the draw order. -/
structure Rng : Type where
  unif : ℕ → ℚ
  gauss : ℕ → ℚ
  lapl : ℕ → ℚ
  perm : ℕ → ℕ → List ℕ
  pos : ℕ

/-- Advance the generator by k raw draws. -/
def Rng.advance (g : Rng) (k : ℕ) : Rng :=
  Rng.mk g.unif g.gauss g.lapl g.perm (g.pos + k)

/-- torch.rand(()): one uniform draw. -/
def Rng.rand (g : Rng) : ℚ × Rng := (g.unif g.pos, g.advance 1)

/-- torch.distributions.Normal(0,1).sample([n]). -/
def Rng.normalSample (g : Rng) (n : ℕ) : List ℚ × Rng :=
  ((List.range n).map (fun j => g.gauss (g.pos + j)), g.advance n)

/-- torch.distributions.Laplace(0,1).sample([n]). -/
def Rng.laplaceSample (g : Rng) (n : ℕ) : List ℚ × Rng :=
  ((List.range n).map (fun j => g.lapl (g.pos + j)), g.advance n)

/-- torch.randperm(n): the permutation delivered at the current stream
position; modelled as consuming n raw draws. -/
def Rng.randperm (g : Rng) (n : ℕ) : List ℕ × Rng := (g.perm g.pos n, g.advance n)

/-- Phase-space state (position q, momentum p, continuity mask is_cont). -/
structure State : Type where
  q : List ℚ
  p : List ℚ
  is_cont : List Bool
deriving DecidableEq, Repr

/-- State.kinetic_energy from infer.py: Gaussian (quadratic) energy on the
continuous coordinates, Laplace (absolute value) energy on the rest. -/
def State.kinetic_energy (s : State) : ℚ :=
  dotQ (maskMul s.p s.is_cont) (maskMul s.p s.is_cont) / 2
    + ((maskMulNot s.p s.is_cont).map (fun x => |x|)).sum

/-- Result bundle of one oracle call.  Modelled from the spec: the ProbRun
class lives in the external ppl module (not part of the sampler core); the
spec section 6 lists exactly these fields, with gradU the gradient of the
negative log-weight. -/
structure ProbRun (T : Type) : Type where
  log_weight : ERat
  gradU : List ℚ
  samples : List ℚ
  is_cont : List Bool
  value : T
deriving DecidableEq, Repr

/-- Modelled from the spec: the bundle field len is the length of samples
(spec section 6), maintained by the external ppl module. -/
def ProbRun.len {T : Type} (r : ProbRun T) : ℕ := r.samples.length

/-- Oracle well-formedness, from the spec oracle contract: the returned
continuity mask matches the returned position vector. -/
def OracleWf {T : Type} (run_prog : List ℚ → ProbRun T) : Prop :=
  ∀ l : List ℚ, (run_prog l).is_cont.length = (run_prog l).samples.length

/-- Output bundle of the integrator routines: the result bundle together with
the two states and the generator (the source mutates the states in place; the
embedding returns them). -/
structure StepOut (T : Type) : Type where
  result : ProbRun T
  state : State
  state_0 : State
  g : Rng

/-- Candidate position of the coordinate integrator:
q[i] += eps * sign(p[i]). -/
def coordCandidate (i : ℕ) (eps : ℚ) (s : State) : List ℚ :=
  s.q.set i (s.q.getD i 0 + eps * sgn (s.p.getD i 0))

/-- Reflection test of the coordinate integrator:
not isfinite(new_U) or |p[i]| <= delta_U. -/
def coordGuard {T : Type} (run_prog : List ℚ → ProbRun T) (i : ℕ) (eps : ℚ)
    (s : State) (r : ProbRun T) : Bool :=
  let U := ERat.neg r.log_weight
  let new_U := ERat.neg (run_prog (coordCandidate i eps s)).log_weight
  let delta_U := ERat.sub new_U U
  !(ERat.isFinite new_U) || ERat.ratLe |s.p.getD i 0| delta_U

/-- Momentum padding for newly discovered coordinates: Gaussian draws, then
Laplace draws, combined through the new-mask slice. -/
def coordPad (k : ℕ) (ms : List Bool) (g : Rng) : List ℚ × Rng :=
  let gsr := g.normalSample k
  let lsr := gsr.2.laplaceSample k
  (vadd (maskMul gsr.1 ms) (maskMulNot lsr.1 ms), lsr.2)

/-- coord_integrator from infer.py. -/
def coord_integrator {T : Type} (run_prog : List ℚ → ProbRun T) (i : ℕ)
    (eps : ℚ) (s s0 : State) (r : ProbRun T) (g : Rng) : StepOut T :=
  let q := coordCandidate i eps s
  let new_result := run_prog q
  let U := ERat.neg r.log_weight
  let new_U := ERat.neg new_result.log_weight
  let delta_U := ERat.sub new_U U
  if coordGuard run_prog i eps s r then
    StepOut.mk r (State.mk s.q (s.p.set i (-(s.p.getD i 0))) s.is_cont) s0 g
  else
    let p1 := s.p.set i (s.p.getD i 0 - sgn (s.p.getD i 0) * ERat.toRat delta_U)
    let N2 := new_result.len
    let N := r.len
    if N < N2 then
      let ic := new_result.is_cont
      let ms := listSlice ic N N2
      let padr := coordPad (N2 - N) ms g
      StepOut.mk new_result
        (State.mk new_result.samples (p1 ++ padr.1) ic)
        (State.mk s0.q (s0.p ++ padr.1) (s0.is_cont ++ ms))
        padr.2
    else
      StepOut.mk new_result
        (State.mk (new_result.samples.take N2) (p1.take N2) (new_result.is_cont.take N2))
        (State.mk s0.q (s0.p.take N2) (s0.is_cont.take N2))
        g

/-- Indices of the discontinuous coordinates (torch.nonzero(~is_cont)). -/
def discIndices (m : List Bool) : List ℕ :=
  (List.range m.length).filter (fun j => m.getD j true = false)

/-- The sweep over the permuted discontinuous indices, skipping indices that
fell out of range because q shrank during the sweep. -/
def discSweep {T : Type} (run_prog : List ℚ → ProbRun T) (eps : ℚ) :
    List ℕ → State → State → ProbRun T → Rng → StepOut T
  | [], s, s0, r, g => StepOut.mk r s s0 g
  | j :: rest, s, s0, r, g =>
    if s.q.length ≤ j then discSweep run_prog eps rest s s0 r g
    else
      let c := coord_integrator run_prog j eps s s0 r g
      discSweep run_prog eps rest c.state c.state_0 c.result c.g

/-- integrator_step from infer.py (one leapfrog step). -/
def integrator_step {T : Type} (run_prog : List ℚ → ProbRun T) (eps : ℚ)
    (s s0 : State) (g : Rng) : StepOut T :=
  let r1 := run_prog s.q
  let p1 := vsub s.p (maskMul (smul (eps / 2) r1.gradU) s.is_cont)
  let q1 := vadd s.q (maskMul (smul (eps / 2) p1) s.is_cont)
  let r2 := run_prog q1
  let di := discIndices s.is_cont
  let pmr := g.randperm di.length
  let dip := pmr.1.map (fun k => di.getD k 0)
  let sw := discSweep run_prog eps dip (State.mk q1 p1 s.is_cont) s0 r2 pmr.2
  let q2 := vadd sw.state.q (maskMul (smul (eps / 2) sw.state.p) sw.state.is_cont)
  let r3 := run_prog q2
  let p2 := vsub sw.state.p (maskMul (smul (eps / 2) r3.gradU) sw.state.is_cont)
  StepOut.mk r3 (State.mk q2 p2 sw.state.is_cont) sw.state_0 sw.g

/-- The leapfrog loop of the driver: runs up to n integrator steps, stopping
early when the current log-weight is no longer finite. -/
def leapfrogLoop {T : Type} (run_prog : List ℚ → ProbRun T) (dt : ℚ) :
    ℕ → State → State → ProbRun T → Rng → StepOut T
  | 0, s, s0, r, g => StepOut.mk r s s0 g
  | Nat.succ n, s, s0, r, g =>
    if ERat.isFinite r.log_weight then
      let st := integrator_step run_prog dt s s0 g
      leapfrogLoop run_prog dt n st.state st.state_0 st.result st.g
    else StepOut.mk r s s0 g

/-- Per-iteration setup draws of the driver, in source order: one uniform
draw for the step-size jitter first, then the Gaussian momentum draws, then
the Laplace momentum draws. -/
structure SetupOut : Type where
  dt : ℚ
  p : List ℚ
  g : Rng

/-- Setup phase of one driver iteration (infer.py lines 210 to 216). -/
def iterSetup (eps : ℚ) (q : List ℚ) (is_cont : List Bool) (g : Rng) : SetupOut :=
  let N := q.length
  let ur := g.rand
  let dt := (ur.1 + 1 / 2) * eps
  let gsr := ur.2.normalSample N
  let lsr := gsr.2.laplaceSample N
  let gaussian := maskMul gsr.1 is_cont
  let laplace := maskMulNot lsr.1 is_cont
  SetupOut.mk dt (vadd gaussian laplace) lsr.2

/-- Outcome of one driver iteration: the persistent driver state (current
position, mask, result bundle, generator), the recorded sample, and the
acceptance flag. -/
structure IterOut (T : Type) : Type where
  q : List ℚ
  is_cont : List Bool
  result : ProbRun T
  g : Rng
  sample : T
  accepted : Bool

/-- Acceptance phase of one driver iteration (infer.py lines 222 to 234).
The uniform acceptance draw is consumed only when the final potential is not
plus infinity, because the source condition short-circuits. -/
def acceptPhase {T : Type} (expQ : ℚ → ℚ) (prev_res rf : ProbRun T)
    (sf s0f : State) (gf : Rng) (q : List ℚ) (is_cont : List Bool) : IterOut T :=
  let K_0 := s0f.kinetic_energy
  let U_0 := ERat.neg prev_res.log_weight
  let K := sf.kinetic_energy
  let U := ERat.neg rf.log_weight
  let accept_prob :=
    ERat.expF expQ (ERat.sub (ERat.sub (ERat.add U_0 (ERat.fin K_0)) U) (ERat.fin K))
  if U = ERat.pinf then IterOut.mk q is_cont prev_res gf prev_res.value false
  else
    let ur := gf.rand
    if ERat.ratLt ur.1 accept_prob then
      IterOut.mk sf.q sf.is_cont rf ur.2 rf.value true
    else IterOut.mk q is_cont prev_res ur.2 prev_res.value false

/-- One full iteration of the np_dhmc driver loop. -/
def np_dhmc_iter {T : Type} (run_prog : List ℚ → ProbRun T) (expQ : ℚ → ℚ)
    (leapfrog_steps : ℕ) (eps : ℚ) (q : List ℚ) (is_cont : List Bool)
    (r : ProbRun T) (g : Rng) : IterOut T :=
  let su := iterSetup eps q is_cont g
  let lf := leapfrogLoop run_prog su.dt leapfrog_steps
    (State.mk q su.p is_cont) (State.mk q su.p is_cont) r su.g
  acceptPhase expQ r lf.result lf.state lf.state_0 lf.g q is_cont

/-- The driver loop: n iterations, collecting one sample per iteration and
counting acceptances. -/
def np_dhmc_loop {T : Type} (run_prog : List ℚ → ProbRun T) (expQ : ℚ → ℚ)
    (leapfrog_steps : ℕ) (eps : ℚ) :
    ℕ → List ℚ → List Bool → ProbRun T → Rng → List T × ℕ
  | 0, _, _, _, _ => ([], 0)
  | Nat.succ n, q, is_cont, r, g =>
    let it := np_dhmc_iter run_prog expQ leapfrog_steps eps q is_cont r g
    let rest := np_dhmc_loop run_prog expQ leapfrog_steps eps n it.q it.is_cont it.result it.g
    (it.sample :: rest.1, (if it.accepted then 1 else 0) + rest.2)

/-- np_dhmc before burn-in trimming: the full per-iteration sample sequence
(count + burnin entries) and the acceptance count. -/
def np_dhmc_raw {T : Type} (run_prog : List ℚ → ProbRun T) (expQ : ℚ → ℚ)
    (count leapfrog_steps : ℕ) (eps : ℚ) (burnin : Option ℕ) (g : Rng) :
    List T × ℕ :=
  let b := burnin.getD (count / 10)
  let r0 := run_prog []
  np_dhmc_loop run_prog expQ leapfrog_steps eps (count + b) r0.samples r0.is_cont r0 g

/-- np_dhmc from infer.py: the raw sequence with the first burnin samples
discarded, together with the acceptance count (the source prints the ratio). -/
def np_dhmc {T : Type} (run_prog : List ℚ → ProbRun T) (expQ : ℚ → ℚ)
    (count leapfrog_steps : ℕ) (eps : ℚ) (burnin : Option ℕ) (g : Rng) :
    List T × ℕ :=
  let b := burnin.getD (count / 10)
  let raw := np_dhmc_raw run_prog expQ count leapfrog_steps eps burnin g
  (raw.1.drop b, raw.2)

/-- The kinetic-energy formula as the spec states it: sum of squares of the
momentum entries at continuous indices over two, plus sum of absolute values
of the momentum entries at discontinuous indices. -/
def kineticEnergySpec (p : List ℚ) (is_cont : List Bool) : ℚ :=
  ((p.zip is_cont).map (fun pc => if pc.2 then pc.1 * pc.1 else 0)).sum / 2
    + ((p.zip is_cont).map (fun pc => if pc.2 then 0 else |pc.1|)).sum

/-- Modelled from the spec: section 5 of the spec asserts the fresh-momentum
draws happen before the step-size-jitter draw; this variant of the iteration
setup performs the draws in that claimed order, for comparison with the
source-order iterSetup. -/
def iterSetupSpecOrder (eps : ℚ) (q : List ℚ) (is_cont : List Bool) (g : Rng) :
    SetupOut :=
  let N := q.length
  let gsr := g.normalSample N
  let lsr := gsr.2.laplaceSample N
  let ur := lsr.2.rand
  let dt := (ur.1 + 1 / 2) * eps
  SetupOut.mk dt (vadd (maskMul gsr.1 is_cont) (maskMulNot lsr.1 is_cont)) ur.2

/-- Generator with constant zero streams, for concrete evaluations. -/
def gW : Rng := Rng.mk (fun _ => 0) (fun _ => 0) (fun _ => 0) (fun _ n => List.range n) 0

/-- Generator whose uniform stream is the draw index, so that draws taken at
different stream positions have different values. -/
def gC9 : Rng :=
  Rng.mk (fun k => (k : ℚ)) (fun _ => 0) (fun _ => 0) (fun _ n => List.range n) 0

/-- Generator driving the accepted infinite-potential trajectory. -/
def gC3 : Rng :=
  Rng.mk (fun _ => 1 / 2) (fun _ => 2) (fun _ => 0) (fun _ n => List.range n) 0

/-- Oracle that rejects every position (log-weight minus infinity). -/
def rpNinf : List ℚ → ProbRun ℕ := fun _ => ProbRun.mk ERat.ninf [] [] [] 0

/-- Oracle with constant finite log-weight that echoes the queried position. -/
def rpConst : List ℚ → ProbRun ℕ :=
  fun l => ProbRun.mk (ERat.fin 0) [0] l (l.map (fun _ => true)) 0

/-- Oracle that accepts only the position [0] and walls off every other
position with log-weight plus infinity. -/
def rpWall : List ℚ → ProbRun ℕ :=
  fun l =>
    if l = [0] then ProbRun.mk (ERat.fin 0) [0] [0] [true] 0
    else ProbRun.mk ERat.pinf [0] l (l.map (fun _ => true)) 1

/-- Oracle that grows the dimension from 1 to 2 at the position [1], flipping
the continuity flag of coordinate 0 in the process. -/
def rpGrow : List ℚ → ProbRun ℕ :=
  fun l =>
    if l = [1] then ProbRun.mk (ERat.fin 0) [0, 0] [1, 5] [true, true] 0
    else ProbRun.mk (ERat.fin 0) [0] [0] [false] 0

/-- Concrete working state for the coordinate-integrator scenarios. -/
def s4 : State := State.mk [0] [2] [false]

lemma getD_set_self {α : Type} (l : List α) (i : ℕ) (v d : α) (h : i < l.length) :
    (l.set i v).getD i d = v := by
  simp [List.getD_eq_getElem?_getD, List.getElem?_set_self h]

lemma getD_set_ne {α : Type} (l : List α) (i j : ℕ) (v d : α) (h : j ≠ i) :
    (l.set i v).getD j d = l.getD j d := by
  have hij : i ≠ j := fun he => h he.symm
  simp [List.getD_eq_getElem?_getD, List.getElem?_set, hij]

lemma set_getD_self {α : Type} (l : List α) (i : ℕ) (d : α) (h : i < l.length) :
    l.set i (l.getD i d) = l := by
  apply List.ext_getElem?
  intro n
  rw [List.getElem?_set]
  by_cases hin : i = n
  · subst hin
    simp [h, List.getD_eq_getElem?_getD, List.getElem?_eq_getElem h]
  · simp [hin]

lemma getD_append_left {α : Type} (a b : List α) (i : ℕ) (d : α) (h : i < a.length) :
    ((a ++ b).getD i d) = a.getD i d := by
  simp [List.getD_eq_getElem?_getD, List.getElem?_append_left h]

lemma getD_take_lt {α : Type} (l : List α) (n i : ℕ) (d : α) (h : i < n) :
    (l.take n).getD i d = l.getD i d := by
  simp [List.getD_eq_getElem?_getD, List.getElem?_take_of_lt h]

lemma dot_maskMul (p : List ℚ) (ic : List Bool) :
    dotQ (maskMul p ic) (maskMul p ic)
      = ((p.zip ic).map (fun pc => if pc.2 then pc.1 * pc.1 else 0)).sum := by
  induction p generalizing ic with
  | nil => simp [dotQ, maskMul]
  | cons x t ih =>
    cases ic with
    | nil => simp [dotQ, maskMul]
    | cons c m =>
      cases c <;> simp [dotQ, maskMul, maskR] at ih ⊢ <;>
        simpa using ih m

lemma abs_maskMulNot (p : List ℚ) (ic : List Bool) :
    ((maskMulNot p ic).map (fun x => |x|)).sum
      = ((p.zip ic).map (fun pc => if pc.2 then 0 else |pc.1|)).sum := by
  induction p generalizing ic with
  | nil => simp [maskMulNot]
  | cons x t ih =>
    cases ic with
    | nil => simp [maskMulNot]
    | cons c m =>
      cases c <;> simp [maskMulNot, maskR] at ih ⊢ <;>
        simpa using ih m

/-- C7: the kinetic energy of a state is the half sum of squares of the
momentum entries at continuous indices plus the sum of absolute values of
the momentum entries at discontinuous indices. -/
theorem claim7_kinetic_energy (s : State) :
    s.kinetic_energy = kineticEnergySpec s.p s.is_cont := by
  unfold State.kinetic_energy kineticEnergySpec
  rw [dot_maskMul, abs_maskMulNot]

lemma acceptPhase_rejected {T : Type} (expQ : ℚ → ℚ) (prev rf : ProbRun T)
    (sf s0f : State) (gf : Rng) (q : List ℚ) (ic : List Bool)
    (h : (acceptPhase expQ prev rf sf s0f gf q ic).accepted = false) :
    (acceptPhase expQ prev rf sf s0f gf q ic).q = q
    ∧ (acceptPhase expQ prev rf sf s0f gf q ic).is_cont = ic
    ∧ (acceptPhase expQ prev rf sf s0f gf q ic).result = prev
    ∧ (acceptPhase expQ prev rf sf s0f gf q ic).sample = prev.value := by
  by_cases h1 : ERat.neg rf.log_weight = ERat.pinf
  · simp [acceptPhase, h1]
  · simp only [acceptPhase, if_neg h1] at h ⊢
    split at h
    next h2 => simp at h
    next h2 => simp [h2]

lemma np_dhmc_iter_rejected {T : Type} (rp : List ℚ → ProbRun T) (expQ : ℚ → ℚ)
    (L : ℕ) (eps : ℚ) (q : List ℚ) (ic : List Bool) (r : ProbRun T) (g : Rng)
    (h : (np_dhmc_iter rp expQ L eps q ic r g).accepted = false) :
    (np_dhmc_iter rp expQ L eps q ic r g).q = q
    ∧ (np_dhmc_iter rp expQ L eps q ic r g).is_cont = ic
    ∧ (np_dhmc_iter rp expQ L eps q ic r g).result = r
    ∧ (np_dhmc_iter rp expQ L eps q ic r g).sample = r.value := by
  exact acceptPhase_rejected expQ r _ _ _ _ q ic h

/-- C6: a driver iteration that rejects its proposal leaves the persistent
driver state (current position, continuity mask, current result bundle)
exactly as it was before the iteration. -/
theorem claim6_reject_rollback {T : Type} (rp : List ℚ → ProbRun T)
    (expQ : ℚ → ℚ) (L : ℕ) (eps : ℚ) (q : List ℚ) (ic : List Bool)
    (r : ProbRun T) (g : Rng)
    (h : (np_dhmc_iter rp expQ L eps q ic r g).accepted = false) :
    (np_dhmc_iter rp expQ L eps q ic r g).q = q
    ∧ (np_dhmc_iter rp expQ L eps q ic r g).is_cont = ic
    ∧ (np_dhmc_iter rp expQ L eps q ic r g).result = r := by
  obtain ⟨h1, h2, h3, _⟩ := np_dhmc_iter_rejected rp expQ L eps q ic r g h
  exact ⟨h1, h2, h3⟩

/-- Witness for C6: with an oracle that rejects every position, the first
iteration rejects and the driver state is unchanged. -/
theorem claim6_reject_rollback_witness :
    (np_dhmc_iter rpNinf (fun _ => 1) 0 1 [] [] (rpNinf []) gW).accepted = false
    ∧ ((np_dhmc_iter rpNinf (fun _ => 1) 0 1 [] [] (rpNinf []) gW).q = []
       ∧ (np_dhmc_iter rpNinf (fun _ => 1) 0 1 [] [] (rpNinf []) gW).is_cont = []
       ∧ (np_dhmc_iter rpNinf (fun _ => 1) 0 1 [] [] (rpNinf []) gW).result = rpNinf []) := by
  constructor
  · simp [np_dhmc_iter, iterSetup, leapfrogLoop, acceptPhase, rpNinf, gW, ERat.neg,
      Rng.rand, Rng.normalSample, Rng.laplaceSample, Rng.advance, vadd, maskMul, maskMulNot]
  · exact claim6_reject_rollback rpNinf (fun _ => 1) 0 1 [] [] (rpNinf []) gW
      (by simp [np_dhmc_iter, iterSetup, leapfrogLoop, acceptPhase, rpNinf, gW, ERat.neg,
        Rng.rand, Rng.normalSample, Rng.laplaceSample, Rng.advance, vadd, maskMul, maskMulNot])

/-- C10: on the reflection branch, the coordinate integrator only flips the
sign of the working momentum entry i: working q and mask, the other momentum
entries, the whole reference state and the returned bundle are unchanged. -/
theorem claim10_reflect_frame {T : Type} (rp : List ℚ → ProbRun T) (i : ℕ)
    (eps : ℚ) (s s0 : State) (r : ProbRun T) (g : Rng)
    (hg : coordGuard rp i eps s r = true) :
    coord_integrator rp i eps s s0 r g
      = StepOut.mk r (State.mk s.q (s.p.set i (-(s.p.getD i 0))) s.is_cont) s0 g
    ∧ ∀ j, j ≠ i → (s.p.set i (-(s.p.getD i 0))).getD j 0 = s.p.getD j 0 := by
  constructor
  · simp only [coord_integrator, hg, if_true]
  · intro j hj
    exact getD_set_ne s.p i j (-(s.p.getD i 0)) 0 hj

/-- Witness for C10: with the always-rejecting oracle the guard holds and the
reflection branch is taken. -/
theorem claim10_reflect_frame_witness :
    coordGuard rpNinf 0 1 (State.mk [0] [1] [false]) (rpNinf [0]) = true
    ∧ (coord_integrator rpNinf 0 1 (State.mk [0] [1] [false]) s4 (rpNinf [0]) gW
        = StepOut.mk (rpNinf [0])
            (State.mk [0] (([1] : List ℚ).set 0 (-(([1] : List ℚ).getD 0 0))) [false]) s4 gW
       ∧ ∀ j, j ≠ 0 →
          (([1] : List ℚ).set 0 (-(([1] : List ℚ).getD 0 0))).getD j 0
            = ([1] : List ℚ).getD j 0) := by
  constructor
  · norm_num [coordGuard, coordCandidate, rpNinf, sgn, ERat.neg, ERat.sub, ERat.add,
      ERat.isFinite, ERat.ratLe]
  · exact claim10_reflect_frame rpNinf 0 1 (State.mk [0] [1] [false]) s4 (rpNinf [0]) gW
      (by norm_num [coordGuard, coordCandidate, rpNinf, sgn, ERat.neg, ERat.sub, ERat.add,
        ERat.isFinite, ERat.ratLe])

/-- C9 (amended): the first draw of a driver iteration is the step-size
jitter, taken at the current stream position; the Gaussian momentum draws
follow at the next positions and the Laplace momentum draws after them, so
the jitter draw precedes the fresh-momentum draws, and the setup consumes
exactly 1 + 2N raw draws of the single shared stream. -/
theorem claim9_draw_order (eps : ℚ) (q : List ℚ) (ic : List Bool) (g : Rng) :
    (iterSetup eps q ic g).dt = (g.unif g.pos + 1 / 2) * eps
    ∧ (iterSetup eps q ic g).p
        = vadd (maskMul ((List.range q.length).map (fun j => g.gauss (g.pos + 1 + j))) ic)
            (maskMulNot ((List.range q.length).map (fun j => g.lapl (g.pos + 1 + q.length + j))) ic)
    ∧ (iterSetup eps q ic g).g.pos = g.pos + 1 + 2 * q.length := by
  refine ⟨rfl, rfl, ?_⟩
  simp only [iterSetup, Rng.rand, Rng.normalSample, Rng.laplaceSample, Rng.advance]
  omega

/-- Counterexample for C9: the claim places the fresh-momentum draws before
the step-size-jitter draw; a setup modelled on that order disagrees with the
source order at a generator whose uniform stream distinguishes positions. -/
theorem claim9_draw_order_counterexample :
    (iterSetup 1 [0] [true] gC9).dt ≠ (iterSetupSpecOrder 1 [0] [true] gC9).dt := by
  norm_num [iterSetup, iterSetupSpecOrder, gC9, Rng.rand, Rng.advance,
    Rng.normalSample, Rng.laplaceSample]

lemma np_dhmc_loop_length {T : Type} (rp : List ℚ → ProbRun T) (expQ : ℚ → ℚ)
    (L : ℕ) (eps : ℚ) :
    ∀ (n : ℕ) (q : List ℚ) (ic : List Bool) (r : ProbRun T) (g : Rng),
      (np_dhmc_loop rp expQ L eps n q ic r g).1.length = n := by
  intro n
  induction n with
  | zero => intro q ic r g; rfl
  | succ k ih =>
    intro q ic r g
    simp only [np_dhmc_loop, List.length_cons]
    rw [ih]

/-- C5: the driver runs count + burnin iterations, records one sample per
iteration (a rejected iteration re-records the current bundle value), and
returns the raw sample sequence with exactly its first burnin entries
removed, so the output length is count; an omitted burnin defaults to
count / 10. -/
theorem claim5_sample_counts {T : Type} (rp : List ℚ → ProbRun T)
    (expQ : ℚ → ℚ) (count L : ℕ) (eps : ℚ) (burnin : Option ℕ) (g : Rng) :
    (np_dhmc_raw rp expQ count L eps burnin g).1.length
        = count + burnin.getD (count / 10)
    ∧ (np_dhmc rp expQ count L eps burnin g).1
        = (np_dhmc_raw rp expQ count L eps burnin g).1.drop (burnin.getD (count / 10))
    ∧ (np_dhmc rp expQ count L eps burnin g).1.length = count
    ∧ np_dhmc rp expQ count L eps none g
        = np_dhmc rp expQ count L eps (some (count / 10)) g
    ∧ ∀ (q : List ℚ) (ic : List Bool) (r : ProbRun T) (g2 : Rng),
        (np_dhmc_iter rp expQ L eps q ic r g2).accepted = false →
          (np_dhmc_iter rp expQ L eps q ic r g2).sample = r.value := by
  have hraw : (np_dhmc_raw rp expQ count L eps burnin g).1.length
      = count + burnin.getD (count / 10) := by
    unfold np_dhmc_raw
    exact np_dhmc_loop_length rp expQ L eps _ _ _ _ _
  refine ⟨hraw, rfl, ?_, rfl, ?_⟩
  · show ((np_dhmc_raw rp expQ count L eps burnin g).1.drop
        (burnin.getD (count / 10))).length = count
    rw [List.length_drop, hraw]
    omega
  · intro q ic r g2 h
    exact (np_dhmc_iter_rejected rp expQ L eps q ic r g2 h).2.2.2

lemma leapfrogLoop_nonfinite {T : Type} (rp : List ℚ → ProbRun T) (dt : ℚ)
    (n : ℕ) (s s0 : State) (r : ProbRun T) (g : Rng)
    (h : ERat.isFinite r.log_weight = false) :
    leapfrogLoop rp dt n s s0 r g = StepOut.mk r s s0 g := by
  cases n with
  | zero => rfl
  | succ k => simp [leapfrogLoop, h]

lemma leapfrogLoop_add {T : Type} (rp : List ℚ → ProbRun T) (dt : ℚ) (n : ℕ) :
    ∀ (m : ℕ) (s s0 : State) (r : ProbRun T) (g : Rng),
      leapfrogLoop rp dt (m + n) s s0 r g
        = leapfrogLoop rp dt n (leapfrogLoop rp dt m s s0 r g).state
            (leapfrogLoop rp dt m s s0 r g).state_0
            (leapfrogLoop rp dt m s s0 r g).result
            (leapfrogLoop rp dt m s s0 r g).g := by
  intro m
  induction m with
  | zero =>
    intro s s0 r g
    simp only [Nat.zero_add]
    rfl
  | succ k ih =>
    intro s s0 r g
    rw [Nat.succ_add]
    by_cases h : ERat.isFinite r.log_weight = true
    · simp only [leapfrogLoop, h, if_true]
      exact ih _ _ _ _
    · have h2 : ERat.isFinite r.log_weight = false := by
        cases hb : ERat.isFinite r.log_weight
        · rfl
        · exact absurd hb h
      simp only [leapfrogLoop, h2, Bool.false_eq_true, if_false]
      rw [leapfrogLoop_nonfinite rp dt n _ _ _ _ h2]

/-- C8: once the current log-weight of an iteration is non-finite, the
remaining leapfrog steps of that iteration are not executed, and the partial
trajectory result is what enters the acceptance phase (it is not propagated
as an error). -/
theorem claim8_early_abort {T : Type} (rp : List ℚ → ProbRun T) (expQ : ℚ → ℚ)
    (eps : ℚ) (q : List ℚ) (ic : List Bool) (r : ProbRun T) (g : Rng)
    (m n : ℕ) (mid : StepOut T)
    (hmid : leapfrogLoop rp (iterSetup eps q ic g).dt m
        (State.mk q (iterSetup eps q ic g).p ic)
        (State.mk q (iterSetup eps q ic g).p ic) r (iterSetup eps q ic g).g = mid)
    (h : ERat.isFinite mid.result.log_weight = false) :
    leapfrogLoop rp (iterSetup eps q ic g).dt (m + n)
        (State.mk q (iterSetup eps q ic g).p ic)
        (State.mk q (iterSetup eps q ic g).p ic) r (iterSetup eps q ic g).g = mid
    ∧ np_dhmc_iter rp expQ (m + n) eps q ic r g
        = acceptPhase expQ r mid.result mid.state mid.state_0 mid.g q ic := by
  have h1 : leapfrogLoop rp (iterSetup eps q ic g).dt (m + n)
      (State.mk q (iterSetup eps q ic g).p ic)
      (State.mk q (iterSetup eps q ic g).p ic) r (iterSetup eps q ic g).g = mid := by
    rw [leapfrogLoop_add, hmid]
    exact leapfrogLoop_nonfinite rp _ n _ _ _ _ h
  refine ⟨h1, ?_⟩
  show acceptPhase expQ r
      (leapfrogLoop rp (iterSetup eps q ic g).dt (m + n)
        (State.mk q (iterSetup eps q ic g).p ic)
        (State.mk q (iterSetup eps q ic g).p ic) r (iterSetup eps q ic g).g).result
      _ _ _ q ic = _
  rw [h1]

/-- Witness for C8: with the always-rejecting oracle the trajectory is
non-finite from the start, so one requested leapfrog step is skipped. -/
theorem claim8_early_abort_witness :
    leapfrogLoop rpNinf (iterSetup 1 [] [] gW).dt 0
        (State.mk [] (iterSetup 1 [] [] gW).p [])
        (State.mk [] (iterSetup 1 [] [] gW).p []) (rpNinf []) (iterSetup 1 [] [] gW).g
      = leapfrogLoop rpNinf (iterSetup 1 [] [] gW).dt 0
          (State.mk [] (iterSetup 1 [] [] gW).p [])
          (State.mk [] (iterSetup 1 [] [] gW).p []) (rpNinf []) (iterSetup 1 [] [] gW).g
    ∧ ERat.isFinite (leapfrogLoop rpNinf (iterSetup 1 [] [] gW).dt 0
          (State.mk [] (iterSetup 1 [] [] gW).p [])
          (State.mk [] (iterSetup 1 [] [] gW).p []) (rpNinf [])
          (iterSetup 1 [] [] gW).g).result.log_weight = false
    ∧ (leapfrogLoop rpNinf (iterSetup 1 [] [] gW).dt (0 + 1)
          (State.mk [] (iterSetup 1 [] [] gW).p [])
          (State.mk [] (iterSetup 1 [] [] gW).p []) (rpNinf [])
          (iterSetup 1 [] [] gW).g
        = leapfrogLoop rpNinf (iterSetup 1 [] [] gW).dt 0
            (State.mk [] (iterSetup 1 [] [] gW).p [])
            (State.mk [] (iterSetup 1 [] [] gW).p []) (rpNinf [])
            (iterSetup 1 [] [] gW).g
       ∧ np_dhmc_iter rpNinf (fun _ => 1) (0 + 1) 1 [] [] (rpNinf []) gW
          = acceptPhase (fun _ => 1) (rpNinf [])
              (leapfrogLoop rpNinf (iterSetup 1 [] [] gW).dt 0
                (State.mk [] (iterSetup 1 [] [] gW).p [])
                (State.mk [] (iterSetup 1 [] [] gW).p []) (rpNinf [])
                (iterSetup 1 [] [] gW).g).result
              (leapfrogLoop rpNinf (iterSetup 1 [] [] gW).dt 0
                (State.mk [] (iterSetup 1 [] [] gW).p [])
                (State.mk [] (iterSetup 1 [] [] gW).p []) (rpNinf [])
                (iterSetup 1 [] [] gW).g).state
              (leapfrogLoop rpNinf (iterSetup 1 [] [] gW).dt 0
                (State.mk [] (iterSetup 1 [] [] gW).p [])
                (State.mk [] (iterSetup 1 [] [] gW).p []) (rpNinf [])
                (iterSetup 1 [] [] gW).g).state_0
              (leapfrogLoop rpNinf (iterSetup 1 [] [] gW).dt 0
                (State.mk [] (iterSetup 1 [] [] gW).p [])
                (State.mk [] (iterSetup 1 [] [] gW).p []) (rpNinf [])
                (iterSetup 1 [] [] gW).g).g [] []) := by
  refine ⟨rfl, rfl, ?_⟩
  exact claim8_early_abort rpNinf (fun _ => 1) 1 [] [] (rpNinf []) gW 0 1 _ rfl rfl

lemma acceptPhase_accepted_iff {T : Type} (expQ : ℚ → ℚ) (prev rf : ProbRun T)
    (sf s0f : State) (gf : Rng) (q : List ℚ) (ic : List Bool) :
    (acceptPhase expQ prev rf sf s0f gf q ic).accepted = true
    ↔ (ERat.neg rf.log_weight ≠ ERat.pinf
       ∧ ERat.ratLt (gf.unif gf.pos)
           (ERat.expF expQ
             (ERat.sub (ERat.sub (ERat.add (ERat.neg prev.log_weight)
               (ERat.fin s0f.kinetic_energy)) (ERat.neg rf.log_weight))
               (ERat.fin sf.kinetic_energy))) = true) := by
  by_cases h1 : ERat.neg rf.log_weight = ERat.pinf
  · simp [acceptPhase, h1]
  · simp only [acceptPhase, if_neg h1]
    by_cases h2 : ERat.ratLt (gf.unif gf.pos)
        (ERat.expF expQ
          (ERat.sub (ERat.sub (ERat.add (ERat.neg prev.log_weight)
            (ERat.fin s0f.kinetic_energy)) (ERat.neg rf.log_weight))
            (ERat.fin sf.kinetic_energy))) = true
    · simp [Rng.rand, h2, h1]
    · simp [Rng.rand, h2, h1]

/-- C3 (amended): a driver iteration accepts its proposal exactly when the
final potential energy is not plus infinity AND the uniform draw taken after
the trajectory is below exp of start total energy minus end total energy,
where the start total energy is the pre-trajectory potential plus the
reference-state kinetic energy and the end total energy is the final
potential plus the working-state kinetic energy.  A final potential of plus
infinity is never accepted; a non-finite final potential of minus infinity
can be accepted, since the source only tests against plus infinity. -/
theorem claim3_accept_iff {T : Type} (rp : List ℚ → ProbRun T) (expQ : ℚ → ℚ)
    (L : ℕ) (eps : ℚ) (q : List ℚ) (ic : List Bool) (r : ProbRun T) (g : Rng) :
    (np_dhmc_iter rp expQ L eps q ic r g).accepted = true
    ↔ (ERat.neg (leapfrogLoop rp (iterSetup eps q ic g).dt L
          (State.mk q (iterSetup eps q ic g).p ic)
          (State.mk q (iterSetup eps q ic g).p ic) r
          (iterSetup eps q ic g).g).result.log_weight ≠ ERat.pinf
       ∧ ERat.ratLt
           ((leapfrogLoop rp (iterSetup eps q ic g).dt L
              (State.mk q (iterSetup eps q ic g).p ic)
              (State.mk q (iterSetup eps q ic g).p ic) r
              (iterSetup eps q ic g).g).g.unif
            (leapfrogLoop rp (iterSetup eps q ic g).dt L
              (State.mk q (iterSetup eps q ic g).p ic)
              (State.mk q (iterSetup eps q ic g).p ic) r
              (iterSetup eps q ic g).g).g.pos)
           (ERat.expF expQ
             (ERat.sub
               (ERat.sub
                 (ERat.add (ERat.neg r.log_weight)
                   (ERat.fin (leapfrogLoop rp (iterSetup eps q ic g).dt L
                     (State.mk q (iterSetup eps q ic g).p ic)
                     (State.mk q (iterSetup eps q ic g).p ic) r
                     (iterSetup eps q ic g).g).state_0.kinetic_energy))
                 (ERat.neg (leapfrogLoop rp (iterSetup eps q ic g).dt L
                   (State.mk q (iterSetup eps q ic g).p ic)
                   (State.mk q (iterSetup eps q ic g).p ic) r
                   (iterSetup eps q ic g).g).result.log_weight))
               (ERat.fin (leapfrogLoop rp (iterSetup eps q ic g).dt L
                 (State.mk q (iterSetup eps q ic g).p ic)
                 (State.mk q (iterSetup eps q ic g).p ic) r
                 (iterSetup eps q ic g).g).state.kinetic_energy))) = true) := by
  exact acceptPhase_accepted_iff expQ r _ _ _ _ q ic

/-- Counterexample for C3: the claim states that a proposal with non-finite
final potential is never accepted, but the source only rejects a final
potential of plus infinity; with an oracle whose wall has log-weight plus
infinity (final potential minus infinity) the acceptance exponent becomes
plus infinity and the proposal is accepted. -/
theorem claim3_accept_iff_counterexample :
    (np_dhmc_iter rpWall (fun _ => 1) 1 1 [0] [true] (rpWall [0]) gC3).accepted = true
    ∧ ERat.isFinite
        (np_dhmc_iter rpWall (fun _ => 1) 1 1 [0] [true] (rpWall [0]) gC3).result.log_weight
      = false := by
  refine ⟨?_, ?_⟩ <;>
  · norm_num [np_dhmc_iter, iterSetup, leapfrogLoop, integrator_step, discSweep, discIndices,
      acceptPhase, coord_integrator, coordGuard, coordCandidate, coordPad, rpWall, gC3,
      State.kinetic_energy, dotQ, sgn, ERat.neg, ERat.sub, ERat.add, ERat.isFinite,
      ERat.ratLe, ERat.ratLt, ERat.toRat, ERat.expF, ProbRun.len, listSlice,
      Rng.rand, Rng.normalSample, Rng.laplaceSample, Rng.randperm, Rng.advance,
      vadd, vsub, smul, maskMul, maskMulNot, maskR]
    decide

/-- C2: after a coordinate-integrator call on a well-formed oracle and a
length-consistent input (working q, p, is_cont of one common length equal to
the bundle length, reference p, is_cont of that same length), the working q,
p, is_cont again share one length and the reference p, is_cont equal it. -/
theorem claim2_length_invariant {T : Type} (rp : List ℚ → ProbRun T) (i : ℕ)
    (eps : ℚ) (s s0 : State) (r : ProbRun T) (g : Rng)
    (hWf : OracleWf rp)
    (hqp : s.q.length = s.p.length)
    (hcp : s.is_cont.length = s.p.length)
    (h0p : s0.p.length = s.p.length)
    (h0c : s0.is_cont.length = s.p.length)
    (hr : s.p.length = r.len) :
    (coord_integrator rp i eps s s0 r g).state.q.length
        = (coord_integrator rp i eps s s0 r g).state.p.length
    ∧ (coord_integrator rp i eps s s0 r g).state.is_cont.length
        = (coord_integrator rp i eps s s0 r g).state.p.length
    ∧ (coord_integrator rp i eps s s0 r g).state_0.p.length
        = (coord_integrator rp i eps s s0 r g).state.p.length
    ∧ (coord_integrator rp i eps s s0 r g).state_0.is_cont.length
        = (coord_integrator rp i eps s s0 r g).state.p.length := by
  have hic : (rp (coordCandidate i eps s)).is_cont.length
      = (rp (coordCandidate i eps s)).samples.length := hWf _
  by_cases hg : coordGuard rp i eps s r = true
  · simp only [coord_integrator, hg, if_true]
    simp only [List.length_set]
    exact ⟨hqp, hcp, h0p, h0c⟩
  · have hg2 : coordGuard rp i eps s r = false := by
      cases hb : coordGuard rp i eps s r
      · rfl
      · exact absurd hb hg
    simp only [coord_integrator, hg2, Bool.false_eq_true, if_false]
    by_cases hN : r.len < (rp (coordCandidate i eps s)).len
    · simp only [if_pos hN]
      simp only [coordPad, Rng.normalSample, Rng.laplaceSample, Rng.advance, vadd,
        maskMul, maskMulNot, listSlice, List.length_append, List.length_set,
        List.length_zipWith, List.length_map, List.length_range, List.length_take,
        List.length_drop]
      simp only [ProbRun.len] at hr hN hic ⊢
      omega
    · simp only [if_neg hN]
      simp only [List.length_take, List.length_set]
      simp only [ProbRun.len] at hr hN hic ⊢
      omega

/-- Witness for C2: a concrete refraction call on the constant-weight echo
oracle keeps all five vectors at length one. -/
theorem claim2_length_invariant_witness :
    OracleWf rpConst
    ∧ (State.mk [0] [1] [true]).q.length = (State.mk [0] [1] [true]).p.length
    ∧ ((coord_integrator rpConst 0 1 (State.mk [0] [1] [true]) (State.mk [5] [1] [true]) (rpConst [0]) gW).state.q.length
        = (coord_integrator rpConst 0 1 (State.mk [0] [1] [true]) (State.mk [5] [1] [true]) (rpConst [0]) gW).state.p.length
       ∧ (coord_integrator rpConst 0 1 (State.mk [0] [1] [true]) (State.mk [5] [1] [true]) (rpConst [0]) gW).state.is_cont.length
        = (coord_integrator rpConst 0 1 (State.mk [0] [1] [true]) (State.mk [5] [1] [true]) (rpConst [0]) gW).state.p.length
       ∧ (coord_integrator rpConst 0 1 (State.mk [0] [1] [true]) (State.mk [5] [1] [true]) (rpConst [0]) gW).state_0.p.length
        = (coord_integrator rpConst 0 1 (State.mk [0] [1] [true]) (State.mk [5] [1] [true]) (rpConst [0]) gW).state.p.length
       ∧ (coord_integrator rpConst 0 1 (State.mk [0] [1] [true]) (State.mk [5] [1] [true]) (rpConst [0]) gW).state_0.is_cont.length
        = (coord_integrator rpConst 0 1 (State.mk [0] [1] [true]) (State.mk [5] [1] [true]) (rpConst [0]) gW).state.p.length) := by
  refine ⟨?_, rfl, ?_⟩
  · intro l
    simp [rpConst]
  · exact claim2_length_invariant rpConst 0 1 (State.mk [0] [1] [true])
      (State.mk [5] [1] [true]) (rpConst [0]) gW
      (by intro l; simp [rpConst]) rfl rfl rfl rfl rfl

lemma coordPad_entries (k : ℕ) (ms : List Bool) (g : Rng) (hms : ms.length = k) :
    (coordPad k ms g).1 = (List.range k).map
      (fun j => if ms.getD j true then g.gauss (g.pos + j) else g.lapl (g.pos + k + j)) := by
  apply List.ext_getElem
  · simp [coordPad, vadd, maskMul, maskMulNot, Rng.normalSample, Rng.laplaceSample,
      Rng.advance, hms]
  · intro n h1 h2
    have hn : n < k := by
      simpa using h2
    have hnm : n < ms.length := by omega
    simp only [coordPad, vadd, maskMul, maskMulNot, Rng.normalSample, Rng.laplaceSample,
      Rng.advance, List.getElem_zipWith, List.getElem_map, List.getElem_range]
    rw [List.getD_eq_getElem?_getD, List.getElem?_eq_getElem hnm]
    cases hb : ms[n] <;> simp [maskR]

/-- C4 (amended): on an accepted coordinate-integrator move that grows the
dimension from N to N2 > N, each newly introduced index receives one freshly
drawn momentum value, Gaussian if the new mask marks it continuous and
Laplace otherwise; the drawn values are appended to both the working and the
reference momentum, the new mask entries are appended to the reference mask,
and the working mask is replaced by the new result's full mask.  On a shrink
to N2 < N, the working q, p, is_cont and the reference p, is_cont are all
truncated to length N2. -/
theorem claim4_dimension_change {T : Type} (rp : List ℚ → ProbRun T) (i : ℕ)
    (eps : ℚ) (s s0 : State) (r : ProbRun T) (g : Rng)
    (hg : coordGuard rp i eps s r = false)
    (hWf : OracleWf rp)
    (hlen : s.p.length = r.len) :
    (r.len < (rp (coordCandidate i eps s)).len →
      ((coord_integrator rp i eps s s0 r g).state.p.drop r.len
          = (coordPad ((rp (coordCandidate i eps s)).len - r.len)
              (listSlice (rp (coordCandidate i eps s)).is_cont r.len
                (rp (coordCandidate i eps s)).len) g).1
       ∧ (coord_integrator rp i eps s s0 r g).state_0.p
          = s0.p ++ (coordPad ((rp (coordCandidate i eps s)).len - r.len)
              (listSlice (rp (coordCandidate i eps s)).is_cont r.len
                (rp (coordCandidate i eps s)).len) g).1
       ∧ (coord_integrator rp i eps s s0 r g).state_0.is_cont
          = s0.is_cont ++ listSlice (rp (coordCandidate i eps s)).is_cont r.len
              (rp (coordCandidate i eps s)).len
       ∧ (coord_integrator rp i eps s s0 r g).state.is_cont
          = (rp (coordCandidate i eps s)).is_cont
       ∧ (coordPad ((rp (coordCandidate i eps s)).len - r.len)
            (listSlice (rp (coordCandidate i eps s)).is_cont r.len
              (rp (coordCandidate i eps s)).len) g).1
          = (List.range ((rp (coordCandidate i eps s)).len - r.len)).map
              (fun j =>
                if (listSlice (rp (coordCandidate i eps s)).is_cont r.len
                    (rp (coordCandidate i eps s)).len).getD j true
                then g.gauss (g.pos + j)
                else g.lapl (g.pos + ((rp (coordCandidate i eps s)).len - r.len) + j))))
    ∧ ((rp (coordCandidate i eps s)).len < r.len →
      ((coord_integrator rp i eps s s0 r g).state.q
          = (rp (coordCandidate i eps s)).samples.take (rp (coordCandidate i eps s)).len
       ∧ (coord_integrator rp i eps s s0 r g).state.is_cont
          = (rp (coordCandidate i eps s)).is_cont.take (rp (coordCandidate i eps s)).len
       ∧ (coord_integrator rp i eps s s0 r g).state_0.p
          = s0.p.take (rp (coordCandidate i eps s)).len
       ∧ (coord_integrator rp i eps s s0 r g).state_0.is_cont
          = s0.is_cont.take (rp (coordCandidate i eps s)).len
       ∧ (coord_integrator rp i eps s s0 r g).state.p.length
          = (rp (coordCandidate i eps s)).len
       ∧ (coord_integrator rp i eps s s0 r g).state.q.length
          = (rp (coordCandidate i eps s)).len
       ∧ (coord_integrator rp i eps s s0 r g).state.is_cont.length
          = (rp (coordCandidate i eps s)).len)) := by
  have hic : (rp (coordCandidate i eps s)).is_cont.length
      = (rp (coordCandidate i eps s)).samples.length := hWf _
  constructor
  · intro hN
    simp only [coord_integrator, hg, Bool.false_eq_true, if_false, if_pos hN]
    have hms : (listSlice (rp (coordCandidate i eps s)).is_cont r.len
        (rp (coordCandidate i eps s)).len).length
        = (rp (coordCandidate i eps s)).len - r.len := by
      simp only [listSlice, List.length_take, List.length_drop]
      simp only [ProbRun.len] at hic hN ⊢
      omega
    refine ⟨?_, trivial, trivial, trivial, coordPad_entries _ _ g hms⟩
    apply List.drop_left'
    simp [hlen]
  · intro hN2
    have hN : ¬ r.len < (rp (coordCandidate i eps s)).len := by omega
    simp only [coord_integrator, hg, Bool.false_eq_true, if_false, if_neg hN]
    refine ⟨trivial, trivial, trivial, trivial, ?_, ?_, ?_⟩
    · simp only [List.length_take, List.length_set]
      omega
    · simp only [List.length_take]
      simp only [ProbRun.len] at hic hN2 ⊢
      omega
    · simp only [List.length_take]
      simp only [ProbRun.len] at hic hN2 ⊢
      omega

/-- Counterexample for C4: the claim says the new mask entries are appended
to the working state's continuity mask as well, but the source replaces the
working mask by the new result's full mask; with an oracle that flips the
continuity flag of an existing coordinate while growing, the working mask is
not the old mask with the new entries appended. -/
theorem claim4_dimension_change_counterexample :
    (coord_integrator rpGrow 0 1 s4 s4 (rpGrow []) gW).state.is_cont
      ≠ s4.is_cont ++ listSlice (rpGrow (coordCandidate 0 1 s4)).is_cont
          (rpGrow []).len (rpGrow (coordCandidate 0 1 s4)).len := by
  norm_num [coord_integrator, coordGuard, coordCandidate, coordPad, rpGrow, s4, gW, sgn,
    ERat.neg, ERat.sub, ERat.add, ERat.isFinite, ERat.ratLe, ERat.toRat, ProbRun.len,
    listSlice, Rng.normalSample, Rng.laplaceSample, Rng.advance, vadd, maskMul,
    maskMulNot, maskR]

/-- Witness for C4 (amended): the growing oracle satisfies the refraction
guard, well-formedness and the length precondition, and the reference
momentum indeed receives the drawn padding. -/
theorem claim4_dimension_change_witness :
    coordGuard rpGrow 0 1 s4 (rpGrow []) = false
    ∧ OracleWf rpGrow
    ∧ s4.p.length = (rpGrow []).len
    ∧ (coord_integrator rpGrow 0 1 s4 s4 (rpGrow []) gW).state_0.p
        = s4.p ++ (coordPad ((rpGrow (coordCandidate 0 1 s4)).len - (rpGrow []).len)
            (listSlice (rpGrow (coordCandidate 0 1 s4)).is_cont (rpGrow []).len
              (rpGrow (coordCandidate 0 1 s4)).len) gW).1 := by
  have hg : coordGuard rpGrow 0 1 s4 (rpGrow []) = false := by
    norm_num [coordGuard, coordCandidate, rpGrow, s4, sgn, ERat.neg, ERat.sub, ERat.add,
      ERat.isFinite, ERat.ratLe]
  have hwf : OracleWf rpGrow := by
    intro l
    by_cases h : l = [1] <;> simp [rpGrow, h]
  have hN : (rpGrow []).len < (rpGrow (coordCandidate 0 1 s4)).len := by
    norm_num [rpGrow, coordCandidate, s4, sgn, ProbRun.len]
  exact ⟨hg, hwf, rfl,
    ((claim4_dimension_change rpGrow 0 1 s4 s4 (rpGrow []) gW hg hwf rfl).1 hN).2.1⟩

lemma refract_arith (p d : ℚ) (hp : p ≠ 0) (h : ¬ |p| ≤ d) :
    |p - sgn p * d| = |p| - d ∧ sgn (p - sgn p * d) = sgn p := by
  rcases lt_trichotomy p 0 with hl | he | hgt
  · have hs : sgn p = -1 := by
      simp [sgn, hl, asymm hl]
    have habs : |p| = -p := abs_of_neg hl
    have hd : d < -p := by
      rw [habs] at h
      exact not_le.mp h
    have hneg : p - sgn p * d < 0 := by
      rw [hs]
      linarith
    constructor
    · rw [abs_of_neg hneg, habs, hs]
      ring
    · have hpd : p + d < 0 := by linarith
      rw [hs]
      have he2 : p - -1 * d = p + d := by ring
      rw [he2]
      simp [sgn, hpd, asymm hpd]
  · exact absurd he hp
  · have hs : sgn p = 1 := by
      simp [sgn, hgt]
    have habs : |p| = p := abs_of_pos hgt
    have hd : d < p := by
      rw [habs] at h
      exact not_le.mp h
    have hpos : 0 < p - sgn p * d := by
      rw [hs]
      linarith
    constructor
    · rw [abs_of_pos hpos, habs, hs]
      ring
    · rw [hs]
      have he2 : p - 1 * d = p - d := by ring
      rw [he2]
      have h1 : (0 : ℚ) < p - d := by linarith
      simp [sgn, h1]

/-- C1: on a call of the coordinate integrator with a finite current
potential and a bundle consistent with the working position, if the new
potential is non-finite or the momentum cannot climb the barrier then p[i] is
negated, q is unchanged and the old bundle is returned; otherwise the
magnitude of p[i] is reduced by exactly the potential difference with its
sign preserved, and the new bundle is returned. -/
theorem claim1_coord_integrator {T : Type} (rp : List ℚ → ProbRun T) (i : ℕ)
    (eps : ℚ) (s s0 : State) (r : ProbRun T) (g : Rng) (w : ℚ)
    (hw : r.log_weight = ERat.fin w)
    (hcons : (rp s.q).log_weight = r.log_weight)
    (hiq : i < s.q.length)
    (hip : i < s.p.length) :
    (coordGuard rp i eps s r = true →
      ((coord_integrator rp i eps s s0 r g).state.p.getD i 0 = -(s.p.getD i 0)
       ∧ (coord_integrator rp i eps s s0 r g).state.q = s.q
       ∧ (coord_integrator rp i eps s s0 r g).result = r))
    ∧ (coordGuard rp i eps s r = false →
        ∀ nv : ℚ, (rp (coordCandidate i eps s)).log_weight = ERat.fin nv →
          i < (rp (coordCandidate i eps s)).len →
          (|(coord_integrator rp i eps s s0 r g).state.p.getD i 0|
              = |s.p.getD i 0| - (w - nv)
           ∧ sgn ((coord_integrator rp i eps s s0 r g).state.p.getD i 0)
              = sgn (s.p.getD i 0)
           ∧ (coord_integrator rp i eps s s0 r g).result
              = rp (coordCandidate i eps s))) := by
  constructor
  · intro hg
    simp only [coord_integrator, hg, if_true]
    exact ⟨getD_set_self s.p i _ 0 hip, by trivial, by trivial⟩
  · intro hg nv hnv hilen
    have hpnz : s.p.getD i 0 ≠ 0 := by
      intro h0
      have hcand : coordCandidate i eps s = s.q := by
        unfold coordCandidate
        rw [h0]
        have e1 : sgn (0 : ℚ) = 0 := by norm_num [sgn]
        rw [e1, mul_zero, add_zero]
        exact set_getD_self s.q i 0 hiq
      have h02 : s.p[i]?.getD 0 = 0 := by
        simpa [List.getD_eq_getElem?_getD] using h0
      have hgt : coordGuard rp i eps s r = true := by
        simp only [coordGuard, hcand, hcons, hw]
        simp [ERat.neg, ERat.sub, ERat.add, ERat.isFinite, ERat.ratLe, h0, h02]
      rw [hgt] at hg
      exact absurd hg (by simp)
    have hto : ERat.toRat (ERat.sub (ERat.neg (rp (coordCandidate i eps s)).log_weight)
        (ERat.neg r.log_weight)) = w - nv := by
      rw [hnv, hw]
      simp [ERat.sub, ERat.neg, ERat.add, ERat.toRat]
      ring
    have hnle : ¬ (|s.p.getD i 0| ≤ w - nv) := by
      have hg2 := hg
      unfold coordGuard at hg2
      rw [hnv, hw] at hg2
      simp [ERat.neg, ERat.isFinite, ERat.sub, ERat.add, ERat.ratLe] at hg2
      intro hcon
      have hcon2 : |s.p[i]?.getD 0| ≤ w - nv := by
        simpa [List.getD_eq_getElem?_getD] using hcon
      linarith
    have harith := refract_arith (s.p.getD i 0) (w - nv) hpnz hnle
    simp only [coord_integrator, hg, Bool.false_eq_true, if_false]
    by_cases hN : r.len < (rp (coordCandidate i eps s)).len
    · simp only [if_pos hN]
      have hlen1 : i < (s.p.set i (s.p.getD i 0
          - sgn (s.p.getD i 0) * ERat.toRat (ERat.sub
            (ERat.neg (rp (coordCandidate i eps s)).log_weight)
            (ERat.neg r.log_weight)))).length := by
        rw [List.length_set]
        exact hip
      rw [getD_append_left _ _ i 0 hlen1, hto,
        getD_set_self s.p i _ 0 hip]
      exact ⟨harith.1, harith.2, by trivial⟩
    · simp only [if_neg hN]
      rw [getD_take_lt _ _ i 0 hilen, hto, getD_set_self s.p i _ 0 hip]
      exact ⟨harith.1, harith.2, by trivial⟩

/-- Witness for C1: a concrete refraction on the constant-weight echo
oracle. -/
theorem claim1_coord_integrator_witness :
    (rpConst [0]).log_weight = ERat.fin 0
    ∧ (rpConst ((State.mk [0] [3] [true]).q)).log_weight = (rpConst [0]).log_weight
    ∧ 0 < (State.mk [0] [3] [true]).q.length
    ∧ ((coordGuard rpConst 0 1 (State.mk [0] [3] [true]) (rpConst [0]) = true →
        ((coord_integrator rpConst 0 1 (State.mk [0] [3] [true]) s4 (rpConst [0]) gW).state.p.getD 0 0
            = -((State.mk [0] [3] [true]).p.getD 0 0)
         ∧ (coord_integrator rpConst 0 1 (State.mk [0] [3] [true]) s4 (rpConst [0]) gW).state.q
            = (State.mk [0] [3] [true]).q
         ∧ (coord_integrator rpConst 0 1 (State.mk [0] [3] [true]) s4 (rpConst [0]) gW).result
            = rpConst [0]))
       ∧ (coordGuard rpConst 0 1 (State.mk [0] [3] [true]) (rpConst [0]) = false →
          ∀ nv : ℚ,
            (rpConst (coordCandidate 0 1 (State.mk [0] [3] [true]))).log_weight = ERat.fin nv →
            0 < (rpConst (coordCandidate 0 1 (State.mk [0] [3] [true]))).len →
            (|(coord_integrator rpConst 0 1 (State.mk [0] [3] [true]) s4 (rpConst [0]) gW).state.p.getD 0 0|
                = |(State.mk [0] [3] [true]).p.getD 0 0| - (0 - nv)
             ∧ sgn ((coord_integrator rpConst 0 1 (State.mk [0] [3] [true]) s4 (rpConst [0]) gW).state.p.getD 0 0)
                = sgn ((State.mk [0] [3] [true]).p.getD 0 0)
             ∧ (coord_integrator rpConst 0 1 (State.mk [0] [3] [true]) s4 (rpConst [0]) gW).result
                = rpConst (coordCandidate 0 1 (State.mk [0] [3] [true]))))) := by
  refine ⟨rfl, rfl, by norm_num, ?_⟩
  exact claim1_coord_integrator rpConst 0 1 (State.mk [0] [3] [true]) s4 (rpConst [0]) gW 0
    rfl rfl (by norm_num) (by norm_num)
